import Mathlib

/-!
Verification of the type-fetch HTTP client (TFetchClient) against its
natural-language specification.

The development shallowly embeds the TypeScript sources:
* the retry loop `handleRequest` (src, lines 166-201),
* the cache store `saveToCache` / `getFromCache` / `cleanupCache`
  (src, lines 226-281),
* the cache-key fingerprint `GenerateCacheKey` (src, lines 209-214),
* the GET façade `get` (src, lines 60-89).

JavaScript values carried by responses are modelled as `JsonValue`; the
`Result<T>` shape `{data: T | null, error: Error | null}` is modelled by
`ResultT`, where the JavaScript `null` in the `data` field is
`JsonValue.null` (in JavaScript a JSON body that decodes to `null` and the
literal `null` written by the error paths are the same value).  Machine
timestamps are `Nat`; `Date.now() - timestamp` is `Nat` truncated
subtraction, which agrees with the JavaScript comparison
`age > maxAge` for every `maxAge ≥ 0` (a negative age compares below any
non-negative bound, and a truncated-to-zero age does too).
-/

namespace TypeFetch

/-- JSON values, used for request/response payloads and cached data. -/
inductive JsonValue where
  | null
  | bool (b : Bool)
  | num (n : Int)
  | str (s : String)
  | arr (elems : List JsonValue)
  | obj (fields : List (String × JsonValue))

/-- JavaScript truthiness of a `JsonValue` (as used by `if (result.data)`
and `if (cachedResponse)` in the source).  Arrays and objects are always
truthy. -/
def JsonValue.truthy : JsonValue → Bool
  | .null => false
  | .bool b => b
  | .num n => n != 0
  | .str s => s != ""
  | .arr _ => true
  | .obj _ => true

/-- The `Result<T>` shape `{data: T | null, error: Error | null}`.
`data = JsonValue.null` is the JavaScript `null`; an absent error is
`none`.  Errors are carried as their message strings. -/
structure ResultT where
  data : JsonValue
  error : Option String

-- Constants from src/src/types.ts.
def DEFAULT_RETRY_COUNT : Nat := 0
def DEFAULT_RETRY_DELAY : Nat := 1000
def DEFAULT_MAX_CACHED_ENTRIES : Nat := 5000

/-- The `retry` part of the client configuration.  `hasOnRetry` records
whether an `onRetry` callback was supplied. -/
structure RetryConfig where
  count : Nat
  delay : Nat
  hasOnRetry : Bool

/-- Model of `this.config.retry.count || DEFAULT_RETRY_COUNT` (line 170): the
JavaScript `||` falls back when the configured value is falsy, i.e. `0`. -/
def effMaxRetries (c : RetryConfig) : Nat :=
  if c.count = 0 then DEFAULT_RETRY_COUNT else c.count

/-- Model of `this.config.retry.delay || DEFAULT_RETRY_DELAY` (line 171): a
configured delay of `0` is falsy, so the default of 1000 ms is used. -/
def effDelay (c : RetryConfig) : Nat :=
  if c.delay = 0 then DEFAULT_RETRY_DELAY else c.delay

/-- Contribution of one retry to the `onRetry` invocation count:
`if (this.config.retry.onRetry) { this.config.retry.onRetry(); }`. -/
def onRetryInc (c : RetryConfig) : Nat :=
  if c.hasOnRetry then 1 else 0

/-- Behaviour of one transport attempt, as observed by the `try` block of
`handleRequest`:
* `ok body`: `response.ok` holds and `response.json()` resolves to `body`;
* `httpErr text`: `response.ok` is false and `response.text()` resolves to
  `text`;
* `throwErr msg`: `fetch`, `response.text()` or `response.json()` throws
  (connection error, timeout, malformed body, ...). -/
inductive AttemptOutcome where
  | ok (body : JsonValue)
  | httpErr (text : String)
  | throwErr (msg : String)

/-- Instrumented result of `handleRequest`: the returned `Result`, whether
the defensive post-loop return produced it, the number of transport
attempts issued, the number of `onRetry` invocations, and the summed
sleep time. -/
structure RunOutcome where
  res : ResultT
  defensive : Bool
  attempts : Nat
  onRetryCalls : Nat
  totalDelay : Nat

/-- The `while (attempts <= maxRetries)` loop of `handleRequest`
(lines 173-195).  `attempts` is the loop variable; `outcomes i` is what the
`i`-th issued request does.  Each iteration issues one request; on a
non-ok response or a success it returns; on a throw it either retries
(incrementing `attempts`, invoking `onRetry`, sleeping `delay`) or, with
the budget exhausted, returns the last error.  Exiting the loop without a
return lands in the defensive post-loop result (lines 197-200). -/
def loopGo (c : RetryConfig) (outcomes : Nat → AttemptOutcome)
    (attempts : Nat) : RunOutcome :=
  if attempts ≤ effMaxRetries c then
    match outcomes attempts with
    | .httpErr text =>
        { res := { data := .null, error := some text },
          defensive := false, attempts := 1, onRetryCalls := 0, totalDelay := 0 }
    | .ok body =>
        { res := { data := body, error := none },
          defensive := false, attempts := 1, onRetryCalls := 0, totalDelay := 0 }
    | .throwErr msg =>
        if h : attempts < effMaxRetries c then
          let s := loopGo c outcomes (attempts + 1)
          { res := s.res, defensive := s.defensive, attempts := s.attempts + 1,
            onRetryCalls := s.onRetryCalls + onRetryInc c,
            totalDelay := s.totalDelay + effDelay c }
        else
          { res := { data := .null, error := some msg },
            defensive := false, attempts := 1, onRetryCalls := 0, totalDelay := 0 }
  else
    { res := { data := .null, error := some "Request failed after maximum retries" },
      defensive := true, attempts := 0, onRetryCalls := 0, totalDelay := 0 }
termination_by effMaxRetries c + 1 - attempts
decreasing_by omega

/-- Source `handleRequest` (lines 166-201): run the retry loop from `attempts = 0`. -/
def handleRequest (c : RetryConfig) (outcomes : Nat → AttemptOutcome) : RunOutcome :=
  loopGo c outcomes 0

theorem effMaxRetries_eq_count (c : RetryConfig) : effMaxRetries c = c.count := by
  unfold effMaxRetries DEFAULT_RETRY_COUNT
  split <;> omega

/-- If attempts `a, a+1, ..., a+m-1` throw and attempt `a+m` succeeds with
body `d` (all within budget), the loop returns the success after `m + 1`
attempts, `m` retries and `m` sleeps. -/
theorem loopGo_throw_then_ok (c : RetryConfig) (outcomes : Nat → AttemptOutcome)
    (d : JsonValue) :
    ∀ (m a : Nat), a + m ≤ effMaxRetries c →
      (∀ i, a ≤ i → i < a + m → ∃ e, outcomes i = .throwErr e) →
      outcomes (a + m) = .ok d →
      loopGo c outcomes a =
        { res := { data := d, error := none }, defensive := false,
          attempts := m + 1, onRetryCalls := m * onRetryInc c,
          totalDelay := m * effDelay c } := by
  intro m
  induction m with
  | zero =>
    intro a hle _ hok
    rw [loopGo]
    simp only [Nat.add_zero] at hok hle
    simp [hle, hok]
  | succ m ih =>
    intro a hle hthrow hok
    obtain ⟨e, he⟩ := hthrow a (Nat.le_refl a) (by omega)
    rw [loopGo]
    have ha : a ≤ effMaxRetries c := by omega
    have hlt : a < effMaxRetries c := by omega
    have hrec := ih (a + 1) (by omega)
      (fun i h1 h2 => hthrow i (by omega) (by omega))
      (by rw [show a + 1 + m = a + (m + 1) by omega]; exact hok)
    simp [ha, he, hlt, hrec, Nat.succ_mul]

/-- If every attempt up to the budget throws, the loop returns the last
transport error after `effMaxRetries + 1` attempts. -/
theorem loopGo_throw_all (c : RetryConfig) (outcomes : Nat → AttemptOutcome)
    (lastMsg : String) :
    ∀ (m a : Nat), effMaxRetries c = a + m →
      (∀ i, a ≤ i → i < a + m → ∃ e, outcomes i = .throwErr e) →
      outcomes (a + m) = .throwErr lastMsg →
      loopGo c outcomes a =
        { res := { data := .null, error := some lastMsg }, defensive := false,
          attempts := m + 1, onRetryCalls := m * onRetryInc c,
          totalDelay := m * effDelay c } := by
  intro m
  induction m with
  | zero =>
    intro a heq _ hlast
    rw [loopGo]
    simp only [Nat.add_zero] at hlast heq
    have ha : a ≤ effMaxRetries c := by omega
    have hnlt : ¬ a < effMaxRetries c := by omega
    simp [ha, hnlt, hlast]
  | succ m ih =>
    intro a heq hthrow hlast
    obtain ⟨e, he⟩ := hthrow a (Nat.le_refl a) (by omega)
    rw [loopGo]
    have ha : a ≤ effMaxRetries c := by omega
    have hlt : a < effMaxRetries c := by omega
    have hrec := ih (a + 1) (by omega)
      (fun i h1 h2 => hthrow i (by omega) (by omega))
      (by rw [show a + 1 + m = a + (m + 1) by omega]; exact hlast)
    simp [ha, he, hlt, hrec, Nat.succ_mul]

/-- The loop never reaches the defensive post-loop return when entered at
or below the budget. -/
theorem loopGo_not_defensive (c : RetryConfig) (outcomes : Nat → AttemptOutcome) :
    ∀ (m a : Nat), a + m = effMaxRetries c →
      (loopGo c outcomes a).defensive = false := by
  intro m
  induction m with
  | zero =>
    intro a heq
    rw [loopGo]
    have ha : a ≤ effMaxRetries c := by omega
    have hnlt : ¬ a < effMaxRetries c := by omega
    simp only [ha, if_true]
    cases outcomes a <;> simp [hnlt]
  | succ m ih =>
    intro a heq
    rw [loopGo]
    have ha : a ≤ effMaxRetries c := by omega
    have hlt : a < effMaxRetries c := by omega
    cases outcomes a <;> simp [ha, hlt, ih (a + 1) (by omega)]

/-- Error/data analysis of the loop result: a `none` error means some
attempt within budget succeeded with exactly the returned data, and a
`some` error always comes with `data = null`. -/
theorem loopGo_res_cases (c : RetryConfig) (outcomes : Nat → AttemptOutcome) :
    ∀ (m a : Nat), a + m = effMaxRetries c →
      ((loopGo c outcomes a).res.error = none →
        ∃ i, a ≤ i ∧ i ≤ effMaxRetries c ∧
          outcomes i = .ok (loopGo c outcomes a).res.data) ∧
      ((loopGo c outcomes a).res.error ≠ none →
        (loopGo c outcomes a).res.data = .null) := by
  intro m
  induction m with
  | zero =>
    intro a heq
    rw [loopGo]
    have ha : a ≤ effMaxRetries c := by omega
    have hnlt : ¬ a < effMaxRetries c := by omega
    cases h : outcomes a <;> simp [ha, hnlt]
    exact ⟨a, Nat.le_refl a, by omega, h⟩
  | succ m ih =>
    intro a heq
    rw [loopGo]
    have ha : a ≤ effMaxRetries c := by omega
    have hlt : a < effMaxRetries c := by omega
    cases h : outcomes a
    case ok d =>
      simp only [ha, if_true, h]
      refine ⟨fun _ => ⟨a, Nat.le_refl a, by omega, ?_⟩, fun hc => absurd rfl hc⟩
      exact h
    case httpErr t => simp [ha, hlt, h]
    case throwErr e =>
      have hrec := ih (a + 1) (by omega)
      simp only [ha, if_true, h, hlt, dif_pos]
      refine ⟨fun hnone => ?_, fun hsome => ?_⟩
      · obtain ⟨i, hi1, hi2, hi3⟩ := hrec.1 hnone
        exact ⟨i, by omega, hi2, hi3⟩
      · exact hrec.2 hsome

/-- One successful first attempt: `handleRequest` returns the decoded body
with no error, after exactly one attempt. -/
theorem handleRequest_ok0 (c : RetryConfig) (outcomes : Nat → AttemptOutcome)
    (d : JsonValue) (h : outcomes 0 = .ok d) :
    handleRequest c outcomes =
      { res := { data := d, error := none }, defensive := false,
        attempts := 1, onRetryCalls := 0, totalDelay := 0 } := by
  have := loopGo_throw_then_ok c outcomes d 0 0 (by omega)
    (fun i h1 h2 => absurd h2 (by omega)) (by simpa using h)
  simpa [handleRequest] using this

/-- A non-ok first response: `handleRequest` returns the body text as the
error after exactly one attempt, with no retry, delay or callback. -/
theorem handleRequest_http0 (c : RetryConfig) (outcomes : Nat → AttemptOutcome)
    (t : String) (h : outcomes 0 = .httpErr t) :
    handleRequest c outcomes =
      { res := { data := .null, error := some t }, defensive := false,
        attempts := 1, onRetryCalls := 0, totalDelay := 0 } := by
  rw [handleRequest, loopGo]
  simp [h]

/-- Every run issues at least one transport attempt. -/
theorem handleRequest_attempts_pos (c : RetryConfig)
    (outcomes : Nat → AttemptOutcome) : 1 ≤ (handleRequest c outcomes).attempts := by
  rw [handleRequest, loopGo]
  cases h : outcomes 0
  case ok d => simp [h]
  case httpErr t => simp [h]
  case throwErr e =>
    simp only [Nat.zero_le, if_true, h]
    split
    · simp
    · simp

/-- A cache entry `{ data, timestamp }` (src/src/types.ts). -/
structure CacheEntry where
  data : JsonValue
  timestamp : Nat

/-- The `cache` part of the client configuration. -/
structure CacheConfig where
  enabled : Bool
  maxAge : Nat
  maxCachedEntries : Nat

/-- The in-memory cache `Map<string, CacheEntry<unknown>>`, modelled as its
insertion-ordered entry list.  All caches the client ever builds have
duplicate-free keys (`keysNodup`), matching the JavaScript `Map`. -/
abbrev Cache := List (String × CacheEntry)

def keysNodup (m : Cache) : Prop := List.Nodup (m.map Prod.fst)

/-- Model of `Map.prototype.get`. -/
def mapGet (m : Cache) (k : String) : Option CacheEntry :=
  (m.find? (fun p => p.1 == k)).map (fun p => p.2)

/-- Model of `Map.prototype.set`: updating an existing key keeps its position in
iteration order; a new key is appended. -/
def mapSet (m : Cache) (k : String) (v : CacheEntry) : Cache :=
  if m.any (fun p => p.1 == k) then
    m.map (fun p => if p.1 == k then (k, v) else p)
  else m ++ [(k, v)]

/-- Model of `Map.prototype.delete`.  On a duplicate-free cache the filter removes
exactly the entry for `k`, as the JavaScript `Map` does. -/
def mapDelete (m : Cache) (k : String) : Cache :=
  m.filter (fun p => p.1 != k)

/-- Comparison used by the cleanup sweep:
`(a, b) => a[1].timestamp - b[1].timestamp` sorts ascending by timestamp.
The JavaScript sort is stable; ties are broken deterministically either
way, and no claim depends on the tie order. -/
def tsLe (a b : String × CacheEntry) : Prop :=
  a.2.timestamp ≤ b.2.timestamp

instance : DecidableRel tsLe := fun a b => by
  unfold tsLe; infer_instance

instance : IsTotal (String × CacheEntry) tsLe :=
  ⟨fun a b => Nat.le_total a.2.timestamp b.2.timestamp⟩

instance : IsTrans (String × CacheEntry) tsLe :=
  ⟨fun _ _ _ hab hbc => Nat.le_trans hab hbc⟩

/-- Model of `[...this.cache.entries()].sort((a, b) => a[1].timestamp - b[1].timestamp)`
(lines 265-267). -/
def sortByTimestamp (m : Cache) : Cache :=
  List.insertionSort tsLe m

/-- Source `cleanupCache` (lines 258-281): when `maxCachedEntries` is truthy and
equals the current size, delete the first `Math.floor(length * 0.25)`
entries of the timestamp-sorted entry list (multiplying by the exactly
representable 0.25 and flooring is `Nat` division by 4). -/
def cleanupCache (cfg : CacheConfig) (m : Cache) : Cache :=
  if cfg.maxCachedEntries ≠ 0 ∧ cfg.maxCachedEntries = m.length then
    let entries := sortByTimestamp m
    let entriesToRemove := entries.length / 4
    (entries.take entriesToRemove).foldl (fun acc e => mapDelete acc e.1) m
  else m

/-- Source `saveToCache` (lines 226-230): run the cleanup, then insert the entry
stamped with the current time. -/
def saveToCache (cfg : CacheConfig) (m : Cache) (key : String)
    (data : JsonValue) (now : Nat) : Cache :=
  mapSet (cleanupCache cfg m) key { data := data, timestamp := now }

/-- Source `getFromCache` (lines 238-252): a missing key returns `null`; an entry
older than `maxAge` is deleted and `null` returned; a fresh entry is
returned unchanged.  (`this.config.cache?.maxAge || 0` is the identity on
a `Nat`-valued `maxAge`.)  Returns the looked-up value together with the
possibly mutated cache. -/
def getFromCache (cfg : CacheConfig) (m : Cache) (key : String)
    (now : Nat) : Option JsonValue × Cache :=
  match mapGet m key with
  | none => (none, m)
  | some entry =>
    if now - entry.timestamp > cfg.maxAge then (none, mapDelete m key)
    else (some entry.data, m)

/-- A sequence of `saveToCache` calls (key, data, time) starting from the
empty cache of a fresh client. -/
def runPuts (cfg : CacheConfig) (ops : List (String × JsonValue × Nat)) : Cache :=
  ops.foldl (fun m op => saveToCache cfg m op.1 op.2.1 op.2.2) []

theorem mapGet_eq_none_iff (m : Cache) (k : String) :
    mapGet m k = none ↔ ∀ p ∈ m, p.1 ≠ k := by
  simp [mapGet, List.find?_eq_none]

theorem mapGet_mapSet_self (m : Cache) (k : String) (v : CacheEntry) :
    mapGet (mapSet m k v) k = some v := by
  unfold mapSet
  split
  case isTrue hany =>
    induction m with
    | nil => simp at hany
    | cons p t ih =>
      by_cases hp : p.1 = k
      · simp [mapGet, List.find?, hp]
      · have hp' : (p.1 == k) = false := beq_false_of_ne hp
        simp only [List.map_cons, hp', if_false]
        rw [List.any_cons] at hany
        simp only [hp', Bool.false_or] at hany
        simpa [mapGet, List.find?, hp'] using ih hany
  case isFalse hany =>
    induction m with
    | nil => simp [mapGet, List.find?]
    | cons p t ih =>
      rw [List.any_cons] at hany
      simp only [Bool.or_eq_true, not_or] at hany
      have hp' : (p.1 == k) = false := by
        cases hpk : p.1 == k
        · rfl
        · exact absurd hpk hany.1
      simpa [mapGet, List.find?, hp'] using ih hany.2

theorem mapGet_mapDelete_self (m : Cache) (k : String) :
    mapGet (mapDelete m k) k = none := by
  rw [mapGet_eq_none_iff]
  intro p hp
  rw [mapDelete, List.mem_filter] at hp
  simpa using hp.2

theorem length_mapSet_le (m : Cache) (k : String) (v : CacheEntry) :
    (mapSet m k v).length ≤ m.length + 1 := by
  unfold mapSet
  split
  · simp
  · simp

theorem keys_mapSet_replace (m : Cache) (k : String) (v : CacheEntry)
    (h : m.any (fun p => p.1 == k) = true) :
    (mapSet m k v).map Prod.fst = m.map Prod.fst := by
  unfold mapSet
  rw [if_pos h, List.map_map]
  refine List.map_congr_left (fun p _ => ?_)
  by_cases hp : p.1 = k <;> simp [hp]

theorem keysNodup_mapSet (m : Cache) (k : String) (v : CacheEntry)
    (h : keysNodup m) : keysNodup (mapSet m k v) := by
  unfold keysNodup
  by_cases hany : m.any (fun p => p.1 == k) = true
  · rw [keys_mapSet_replace m k v hany]; exact h
  · have hnotin : k ∉ m.map Prod.fst := by
      intro hk
      obtain ⟨p, hp, hpk⟩ := List.mem_map.mp hk
      exact hany (List.any_eq_true.mpr ⟨p, hp, by simp [hpk]⟩)
    unfold mapSet
    rw [if_neg hany, List.map_append, List.nodup_append]
    refine ⟨h, List.nodup_singleton _, ?_⟩
    intro a ha hb
    simp only [List.map_cons, List.map_nil, List.mem_singleton] at hb
    exact hnotin (hb ▸ ha)

theorem keysNodup_filter (m : Cache) (f : String × CacheEntry → Bool)
    (h : keysNodup m) : keysNodup (m.filter f) := by
  unfold keysNodup at h ⊢
  exact List.Nodup.sublist (List.Sublist.map Prod.fst (List.filter_sublist m)) h

/-- The delete loop of `cleanupCache` removes exactly the entries whose key
occurs among the listed ones. -/
theorem foldl_mapDelete_eq_filter (l : List (String × CacheEntry)) :
    ∀ (m : Cache), l.foldl (fun acc e => mapDelete acc e.1) m =
      m.filter (fun p => !(l.any (fun e => e.1 == p.1))) := by
  induction l with
  | nil => intro m; simp
  | cons e t ih =>
    intro m
    rw [List.foldl_cons, ih (mapDelete m e.1)]
    unfold mapDelete
    rw [List.filter_filter]
    refine List.filter_congr (fun p _ => ?_)
    by_cases hpe : p.1 = e.1
    · simp [hpe]
    · have h1 : (e.1 == p.1) = false := beq_false_of_ne (Ne.symm hpe)
      have h2 : (p.1 != e.1) = true := by simp [hpe]
      simp [h1, h2]

theorem cleanupCache_not_triggered (cfg : CacheConfig) (m : Cache)
    (h : ¬(cfg.maxCachedEntries ≠ 0 ∧ cfg.maxCachedEntries = m.length)) :
    cleanupCache cfg m = m := by
  unfold cleanupCache
  rw [if_neg h]

/-- Predicate for surviving the cleanup sweep: the key does not occur among
the oldest floor-quarter of the timestamp-sorted entries. -/
def survives (m : Cache) (p : String × CacheEntry) : Bool :=
  !(((sortByTimestamp m).take ((sortByTimestamp m).length / 4)).any
      (fun e => e.1 == p.1))

theorem cleanupCache_triggered_eq_filter (cfg : CacheConfig) (m : Cache)
    (h : cfg.maxCachedEntries ≠ 0 ∧ cfg.maxCachedEntries = m.length) :
    cleanupCache cfg m = m.filter (survives m) := by
  unfold cleanupCache
  rw [if_pos h]
  exact foldl_mapDelete_eq_filter _ m

theorem length_sortByTimestamp (m : Cache) :
    (sortByTimestamp m).length = m.length :=
  (List.perm_insertionSort tsLe m).length_eq

theorem survives_eq_false_of_mem_take (m : Cache)
    (p : String × CacheEntry)
    (hp : p ∈ (sortByTimestamp m).take ((sortByTimestamp m).length / 4)) :
    survives m p = false := by
  unfold survives
  simp only [Bool.not_eq_false']
  exact List.any_eq_true.mpr ⟨p, hp, by simp⟩

theorem survives_eq_true_of_mem_drop (m : Cache) (hnd : keysNodup m)
    (p : String × CacheEntry)
    (hp : p ∈ (sortByTimestamp m).drop ((sortByTimestamp m).length / 4)) :
    survives m p = true := by
  unfold survives
  cases hany : ((sortByTimestamp m).take ((sortByTimestamp m).length / 4)).any
      (fun e => e.1 == p.1)
  · rfl
  · exfalso
    obtain ⟨e, he, hek⟩ := List.any_eq_true.mp hany
    have heq : e.1 = p.1 := by simpa using hek
    have hsnd : keysNodup (sortByTimestamp m) :=
      ((List.perm_insertionSort tsLe m).map Prod.fst).symm.nodup hnd
    unfold keysNodup at hsnd
    rw [← List.take_append_drop ((sortByTimestamp m).length / 4) (sortByTimestamp m),
      List.map_append, List.nodup_append] at hsnd
    exact hsnd.2.2 (List.mem_map.mpr ⟨e, he, rfl⟩)
      (List.mem_map.mpr ⟨p, hp, heq.symm⟩)

/-- When the sweep triggers (size equals a non-zero `maxCachedEntries`),
the cleaned cache is, up to order, the timestamp-sorted entry list with its
first floor-quarter removed. -/
theorem cleanupCache_perm_drop (cfg : CacheConfig) (m : Cache)
    (hnd : keysNodup m)
    (h : cfg.maxCachedEntries ≠ 0 ∧ cfg.maxCachedEntries = m.length) :
    (cleanupCache cfg m).Perm
      ((sortByTimestamp m).drop ((sortByTimestamp m).length / 4)) := by
  rw [cleanupCache_triggered_eq_filter cfg m h]
  have hperm : (m.filter (survives m)).Perm
      ((sortByTimestamp m).filter (survives m)) :=
    List.Perm.filter _ (List.perm_insertionSort tsLe m).symm
  refine hperm.trans ?_
  have hsplit : (sortByTimestamp m).filter (survives m) =
      ((sortByTimestamp m).take ((sortByTimestamp m).length / 4)).filter (survives m) ++
      ((sortByTimestamp m).drop ((sortByTimestamp m).length / 4)).filter (survives m) := by
    rw [← List.filter_append, List.take_append_drop]
  rw [hsplit,
    List.filter_eq_nil_iff.mpr
      (fun p hp => by simp [survives_eq_false_of_mem_take m p hp]),
    List.filter_eq_self.mpr (fun p hp => survives_eq_true_of_mem_drop m hnd p hp),
    List.nil_append]

theorem cleanupCache_triggered_length (cfg : CacheConfig) (m : Cache)
    (hnd : keysNodup m)
    (h : cfg.maxCachedEntries ≠ 0 ∧ cfg.maxCachedEntries = m.length) :
    (cleanupCache cfg m).length = m.length - m.length / 4 := by
  rw [(cleanupCache_perm_drop cfg m hnd h).length_eq, List.length_drop,
    length_sortByTimestamp]

theorem keysNodup_cleanupCache (cfg : CacheConfig) (m : Cache)
    (hnd : keysNodup m) : keysNodup (cleanupCache cfg m) := by
  by_cases h : cfg.maxCachedEntries ≠ 0 ∧ cfg.maxCachedEntries = m.length
  · rw [cleanupCache_triggered_eq_filter cfg m h]
    exact keysNodup_filter m _ hnd
  · rw [cleanupCache_not_triggered cfg m h]; exact hnd

/-- Every entry removed by a triggered sweep is at least as old as every
surviving entry. -/
theorem cleanupCache_evicts_oldest (cfg : CacheConfig) (m : Cache)
    (hnd : keysNodup m)
    (h : cfg.maxCachedEntries ≠ 0 ∧ cfg.maxCachedEntries = m.length) :
    ∀ p ∈ m, p ∉ cleanupCache cfg m →
      ∀ q ∈ cleanupCache cfg m, p.2.timestamp ≤ q.2.timestamp := by
  intro p hpm hpout q hqin
  rw [cleanupCache_triggered_eq_filter cfg m h] at hpout hqin
  have hsorted : List.Sorted tsLe (sortByTimestamp m) :=
    List.sorted_insertionSort tsLe m
  have hsorted2 : List.Sorted tsLe
      ((sortByTimestamp m).take ((sortByTimestamp m).length / 4) ++
       (sortByTimestamp m).drop ((sortByTimestamp m).length / 4)) := by
    rw [List.take_append_drop]
    exact hsorted
  have hpairs := (List.pairwise_append.mp hsorted2).2.2
  have hps : p ∈ sortByTimestamp m :=
    ((List.perm_insertionSort tsLe m).mem_iff).mpr hpm
  have hqm : q ∈ m := (List.mem_filter.mp hqin).1
  have hqs : q ∈ sortByTimestamp m :=
    ((List.perm_insertionSort tsLe m).mem_iff).mpr hqm
  have hps2 : p ∈ (sortByTimestamp m).take ((sortByTimestamp m).length / 4) ++
      (sortByTimestamp m).drop ((sortByTimestamp m).length / 4) := by
    rw [List.take_append_drop]
    exact hps
  have hqs2 : q ∈ (sortByTimestamp m).take ((sortByTimestamp m).length / 4) ++
      (sortByTimestamp m).drop ((sortByTimestamp m).length / 4) := by
    rw [List.take_append_drop]
    exact hqs
  have hptake : p ∈ (sortByTimestamp m).take ((sortByTimestamp m).length / 4) := by
    rcases List.mem_append.mp hps2 with hin | hin
    · exact hin
    · exact absurd (List.mem_filter.mpr
        ⟨hpm, survives_eq_true_of_mem_drop m hnd p hin⟩) hpout
  have hqdrop : q ∈ (sortByTimestamp m).drop ((sortByTimestamp m).length / 4) := by
    rcases List.mem_append.mp hqs2 with hin | hin
    · have hfalse := survives_eq_false_of_mem_take m q hin
      rw [(List.mem_filter.mp hqin).2] at hfalse
      exact absurd hfalse (by simp)
    · exact hin
  exact hpairs p hptake q hqdrop

/-- One `saveToCache` preserves the capacity bound and key uniqueness, for
any capacity of at least 4 (so that a triggered sweep removes at least one
entry). -/
theorem saveToCache_invariant (cfg : CacheConfig) (m : Cache) (key : String)
    (v : JsonValue) (now : Nat) (h4 : 4 ≤ cfg.maxCachedEntries)
    (hnd : keysNodup m) (hlen : m.length ≤ cfg.maxCachedEntries) :
    (saveToCache cfg m key v now).length ≤ cfg.maxCachedEntries ∧
      keysNodup (saveToCache cfg m key v now) := by
  constructor
  · unfold saveToCache
    refine Nat.le_trans (length_mapSet_le _ _ _) ?_
    by_cases h : cfg.maxCachedEntries ≠ 0 ∧ cfg.maxCachedEntries = m.length
    · rw [cleanupCache_triggered_length cfg m hnd h]
      have hq : 1 ≤ m.length / 4 := by
        rw [Nat.le_div_iff_mul_le (by omega)]
        omega
      have hq2 : m.length / 4 ≤ m.length := Nat.div_le_self _ _
      omega
    · rw [cleanupCache_not_triggered cfg m h]
      rcases Nat.lt_or_ge m.length cfg.maxCachedEntries with hlt | hge
      · omega
      · exact absurd ⟨by omega, by omega⟩ h
  · exact keysNodup_mapSet _ key _ (keysNodup_cleanupCache cfg m hnd)

/-- Any sequence of writes from a fresh client keeps the store within the
capacity bound, provided the capacity is at least 4. -/
theorem runPuts_invariant (cfg : CacheConfig) (h4 : 4 ≤ cfg.maxCachedEntries)
    (ops : List (String × JsonValue × Nat)) :
    (runPuts cfg ops).length ≤ cfg.maxCachedEntries ∧
      keysNodup (runPuts cfg ops) := by
  unfold runPuts
  suffices h : ∀ m : Cache, keysNodup m → m.length ≤ cfg.maxCachedEntries →
      (ops.foldl (fun m op => saveToCache cfg m op.1 op.2.1 op.2.2) m).length ≤
        cfg.maxCachedEntries ∧
      keysNodup (ops.foldl (fun m op => saveToCache cfg m op.1 op.2.1 op.2.2) m) by
    exact h [] (by simp [keysNodup]) (by simp)
  induction ops with
  | nil => intro m hnd hlen; exact ⟨hlen, hnd⟩
  | cons op t ih =>
    intro m hnd hlen
    rw [List.foldl_cons]
    obtain ⟨hl, hn⟩ := saveToCache_invariant cfg m op.1 op.2.1 op.2.2 h4 hnd hlen
    exact ih _ hn hl

/-!
`GenerateCacheKey` (lines 209-214) builds
`url + "|" + JSON.stringify([...new Headers(headers).entries()])`.
`Headers` is a platform (Fetch standard) collaborator: its constructor
lowercases header names (ASCII) and combines duplicate names with `", "`,
and its iterator yields entries sorted lexicographically by name
("sort and combine").  That platform behaviour is modelled below;
header lists stand for the sequence-of-pairs form of `HeadersInit`.
-/

/-- ASCII lowercasing of one character, as the `Headers` constructor
normalizes header names. -/
def lowerChar (c : Char) : Char :=
  if 'A' ≤ c ∧ c ≤ 'Z' then Char.ofNat (c.toNat + 32) else c

/-- ASCII lowercasing of a header name. -/
def lowerString (s : String) : String := ⟨s.data.map lowerChar⟩

/-- Strict lexicographic order on character lists (code-unit comparison,
as the `Headers` iterator sorts names). -/
def charListLt : List Char → List Char → Bool
  | [], [] => false
  | [], _ :: _ => true
  | _ :: _, [] => false
  | a :: as, b :: bs => decide (a < b) || (a == b && charListLt as bs)

theorem charListLt_irrefl (as : List Char) : charListLt as as = false := by
  induction as with
  | nil => rfl
  | cons a t ih => simp [charListLt, ih]

theorem charListLt_ne {as bs : List Char} (h : charListLt as bs = true) :
    as ≠ bs := by
  intro heq
  rw [heq, charListLt_irrefl] at h
  exact Bool.false_ne_true h

theorem charListLt_asymm :
    ∀ (as bs : List Char), charListLt as bs = true → charListLt bs as = false := by
  intro as
  induction as with
  | nil =>
    intro bs h
    cases bs with
    | nil => simp [charListLt] at h
    | cons b t => rfl
  | cons a s ih =>
    intro bs h
    cases bs with
    | nil => simp [charListLt] at h
    | cons b t =>
      simp only [charListLt, Bool.or_eq_true, decide_eq_true_eq,
        Bool.and_eq_true, beq_iff_eq] at h
      rcases h with hlt | ⟨hab, hrec⟩
      · have h1 : decide (b < a) = false := by simp [not_lt_of_lt hlt]
        have h2 : (b == a) = false := beq_false_of_ne (ne_of_gt hlt)
        simp [charListLt, h1, h2]
      · subst hab
        simp [charListLt, ih t hrec]

theorem charListLt_trans :
    ∀ (as bs cs : List Char), charListLt as bs = true → charListLt bs cs = true →
      charListLt as cs = true := by
  intro as
  induction as with
  | nil =>
    intro bs cs h1 h2
    cases bs with
    | nil => simp [charListLt] at h1
    | cons b t =>
      cases cs with
      | nil => simp [charListLt] at h2
      | cons c u => rfl
  | cons a s ih =>
    intro bs cs h1 h2
    cases bs with
    | nil => simp [charListLt] at h1
    | cons b t =>
      cases cs with
      | nil => simp [charListLt] at h2
      | cons c u =>
        simp only [charListLt, Bool.or_eq_true, decide_eq_true_eq,
          Bool.and_eq_true, beq_iff_eq] at h1 h2 ⊢
        rcases h1 with hab | ⟨hab, hrec1⟩
        · rcases h2 with hbc | ⟨hbc, _⟩
          · exact Or.inl (lt_trans hab hbc)
          · exact Or.inl (hbc ▸ hab)
        · rcases h2 with hbc | ⟨hbc, hrec2⟩
          · exact Or.inl (hab ▸ hbc)
          · exact Or.inr ⟨hab.trans hbc, ih t u hrec1 hrec2⟩

theorem charListLt_of_ne :
    ∀ (as bs : List Char), as ≠ bs →
      charListLt as bs = true ∨ charListLt bs as = true := by
  intro as
  induction as with
  | nil =>
    intro bs hne
    cases bs with
    | nil => exact absurd rfl hne
    | cons b t => exact Or.inl rfl
  | cons a s ih =>
    intro bs hne
    cases bs with
    | nil => exact Or.inr rfl
    | cons b t =>
      by_cases hab : a = b
      · subst hab
        by_cases hst : s = t
        · exact absurd (hst ▸ rfl) hne
        · rcases ih t hst with h | h
          · exact Or.inl (by simp [charListLt, h])
          · exact Or.inr (by simp [charListLt, h])
      · rcases lt_or_gt_of_ne hab with h | h
        · exact Or.inl (by simp [charListLt, h])
        · exact Or.inr (by simp [charListLt, h])

/-- Comparison used to sort combined header entries: by name, with the
value as tie break (after combining, names are unique, so the tie break
never decides between distinct entries). -/
def headerLe (a b : String × String) : Bool :=
  if a.1.data = b.1.data then
    charListLt a.2.data b.2.data || a.2.data == b.2.data
  else charListLt a.1.data b.1.data

def headerRelLe (a b : String × String) : Prop := headerLe a b = true

instance : DecidableRel headerRelLe := fun a b => by
  unfold headerRelLe
  infer_instance

instance : IsTotal (String × String) headerRelLe := by
  constructor
  intro a b
  unfold headerRelLe headerLe
  by_cases hname : a.1.data = b.1.data
  · by_cases hval : a.2.data = b.2.data
    · exact Or.inl (by simp [hname, hval])
    · rcases charListLt_of_ne _ _ hval with h | h
      · exact Or.inl (by simp [hname, h])
      · exact Or.inr (by simp [hname.symm, h])
  · rcases charListLt_of_ne _ _ hname with h | h
    · exact Or.inl (by simp [hname, h])
    · exact Or.inr (by simp [Ne.symm hname, h])

instance : IsTrans (String × String) headerRelLe := by
  constructor
  intro a b c hab hbc
  unfold headerRelLe headerLe at hab hbc ⊢
  by_cases h1 : a.1.data = b.1.data <;> by_cases h2 : b.1.data = c.1.data
  · rw [if_pos h1] at hab
    rw [if_pos h2] at hbc
    rw [if_pos (h1.trans h2)]
    simp only [Bool.or_eq_true, beq_iff_eq] at hab hbc ⊢
    rcases hab with hab | hab <;> rcases hbc with hbc | hbc
    · exact Or.inl (charListLt_trans _ _ _ hab hbc)
    · exact Or.inl (hbc ▸ hab)
    · exact Or.inl (hab ▸ hbc)
    · exact Or.inr (hab.trans hbc)
  · rw [if_neg (h1 ▸ h2)]
    rw [if_neg h2] at hbc
    exact h1 ▸ hbc
  · rw [if_neg (fun hac => h1 (hac.trans h2.symm))]
    rw [if_neg h1] at hab
    exact h2 ▸ hab
  · rw [if_neg h1] at hab
    rw [if_neg h2] at hbc
    have hac : charListLt a.1.data c.1.data = true :=
      charListLt_trans _ _ _ hab hbc
    rw [if_neg (charListLt_ne hac)]
    exact hac

instance : IsAntisymm (String × String) headerRelLe := by
  constructor
  intro a b hab hba
  unfold headerRelLe headerLe at hab hba
  by_cases hname : a.1.data = b.1.data
  · rw [if_pos hname] at hab
    rw [if_pos hname.symm] at hba
    simp only [Bool.or_eq_true, beq_iff_eq] at hab hba
    have hval : a.2.data = b.2.data := by
      rcases hab with hab | hab
      · rcases hba with hba | hba
        · rw [charListLt_asymm _ _ hab] at hba
          exact absurd hba Bool.false_ne_true
        · exact hba.symm
      · exact hab
    obtain ⟨⟨n1⟩, ⟨v1⟩⟩ := a
    obtain ⟨⟨n2⟩, ⟨v2⟩⟩ := b
    simp only at hname hval
    rw [hname, hval]
  · rw [if_neg hname] at hab
    rw [if_neg (Ne.symm hname)] at hba
    rw [charListLt_asymm _ _ hab] at hba
    exact absurd hba Bool.false_ne_true

/-- Appending one raw header to a `Headers` list under construction
(Fetch standard): the name is lowercased; a duplicate name combines the
values with `", "`, otherwise the pair is appended. -/
def headersAppend (hs : List (String × String)) (p : String × String) :
    List (String × String) :=
  let n := lowerString p.1
  if hs.any (fun q => q.1 == n) then
    hs.map (fun q => if q.1 == n then (q.1, q.2 ++ ", " ++ p.2) else q)
  else hs ++ [(n, p.2)]

/-- Model of `new Headers(init)` for a sequence-of-pairs `init`. -/
def buildHeaders (hs : List (String × String)) : List (String × String) :=
  hs.foldl headersAppend []

/-- Model of `[...new Headers(headers).entries()]`: the combined entries, sorted by
header name. -/
def headersEntries (hs : List (String × String)) : List (String × String) :=
  List.insertionSort headerRelLe (buildHeaders hs)

/-- JSON string escaping (the cases relevant to `JSON.stringify` of header
strings). -/
def escapeChar (c : Char) : String :=
  if c = '"' then "\\\""
  else if c = '\\' then "\\\\"
  else if c = '\n' then "\\n"
  else if c = '\r' then "\\r"
  else if c = '\t' then "\\t"
  else String.singleton c

def escapeString (s : String) : String :=
  String.join (s.data.map escapeChar)

def jsonQuote (s : String) : String := "\"" ++ escapeString s ++ "\""

/-- Model of `JSON.stringify` of one `[name, value]` entry. -/
def stringifyEntry (p : String × String) : String :=
  "[" ++ jsonQuote p.1 ++ "," ++ jsonQuote p.2 ++ "]"

/-- Model of `JSON.stringify` of the entries array. -/
def stringifyEntries (l : List (String × String)) : String :=
  "[" ++ String.intercalate "," (l.map stringifyEntry) ++ "]"

/-- Source `GenerateCacheKey` (lines 209-214):
`` `${url.toString()}|${headersString}` `` where `headersString` is the
stringified sorted entries, or `""` without headers. -/
def GenerateCacheKey (url : String)
    (headers : Option (List (String × String))) : String :=
  let headersString := match headers with
    | some hs => stringifyEntries (headersEntries hs)
    | none => ""
  url ++ "|" ++ headersString

/-- With pairwise-distinct lowercased names, building a `Headers` object
neither combines nor reorders: it just lowercases the names. -/
theorem buildHeaders_of_nodup :
    ∀ (hs acc : List (String × String)),
      List.Nodup (acc.map Prod.fst ++ hs.map (fun p => lowerString p.1)) →
      hs.foldl headersAppend acc =
        acc ++ hs.map (fun p => (lowerString p.1, p.2)) := by
  intro hs
  induction hs with
  | nil => intro acc _; simp
  | cons p t ih =>
    intro acc hnd
    have hnotin : lowerString p.1 ∉ acc.map Prod.fst := by
      intro hmem
      rw [List.nodup_append] at hnd
      exact hnd.2.2 hmem (by simp)
    have hany : (acc.any (fun q => q.1 == lowerString p.1)) = false := by
      rw [← Bool.not_eq_true, List.any_eq_true]
      rintro ⟨q, hq, hqk⟩
      exact hnotin (List.mem_map.mpr ⟨q, hq, by simpa using hqk⟩)
    rw [List.foldl_cons]
    have happ : headersAppend acc p = acc ++ [(lowerString p.1, p.2)] := by
      unfold headersAppend
      rw [if_neg (by rw [hany]; exact Bool.false_ne_true)]
    rw [happ, ih (acc ++ [(lowerString p.1, p.2)]) (by
      rw [List.map_append, List.append_assoc]
      simpa using hnd)]
    simp

/-- Evaluating `headersEntries` on duplicate-free names gives the sorted lowercased
pair list. -/
theorem headersEntries_of_nodup (hs : List (String × String))
    (hnd : List.Nodup (hs.map (fun p => lowerString p.1))) :
    headersEntries hs =
      List.insertionSort headerRelLe
        (hs.map (fun p => (lowerString p.1, p.2))) := by
  unfold headersEntries buildHeaders
  rw [buildHeaders_of_nodup hs [] (by simpa using hnd), List.nil_append]

/-- Header lists that are permutations of each other (with duplicate-free
lowercased names) produce identical sorted entry lists. -/
theorem headersEntries_perm (hs1 hs2 : List (String × String))
    (hnd : List.Nodup (hs1.map (fun p => lowerString p.1)))
    (hperm : hs1.Perm hs2) : headersEntries hs1 = headersEntries hs2 := by
  have hnd2 : List.Nodup (hs2.map (fun p => lowerString p.1)) :=
    (hperm.map (fun p => lowerString p.1)).nodup hnd
  rw [headersEntries_of_nodup hs1 hnd, headersEntries_of_nodup hs2 hnd2]
  refine List.eq_of_perm_of_sorted ?_
    (List.sorted_insertionSort headerRelLe _)
    (List.sorted_insertionSort headerRelLe _)
  refine (List.perm_insertionSort headerRelLe _).trans
    (List.Perm.trans ?_ (List.perm_insertionSort headerRelLe _).symm)
  exact hperm.map (fun p => (lowerString p.1, p.2))

/-- The full client configuration (after constructor defaulting). -/
structure ClientConfig where
  retry : RetryConfig
  cache : CacheConfig

/-- Instrumented result of one `get` call: the returned `Result`, the cache
state afterwards, and the transport/callback/delay counters. -/
structure GetOutcome where
  res : ResultT
  cache : Cache
  transportCalls : Nat
  onRetryCalls : Nat
  totalDelay : Nat

/-- The tail of `get` (lines 74-88): run `handleRequest`, and if caching is
enabled and `result.data` is truthy, save the data under the key. -/
def finishGet (cfg : ClientConfig) (m : Cache) (ckey : String)
    (outcomes : Nat → AttemptOutcome) (now : Nat) : GetOutcome :=
  let r := handleRequest cfg.retry outcomes
  if cfg.cache.enabled && r.res.data.truthy then
    { res := r.res, cache := saveToCache cfg.cache m ckey r.res.data now,
      transportCalls := r.attempts, onRetryCalls := r.onRetryCalls,
      totalDelay := r.totalDelay }
  else
    { res := r.res, cache := m, transportCalls := r.attempts,
      onRetryCalls := r.onRetryCalls, totalDelay := r.totalDelay }

/-- Source `get` (lines 60-89): compute the key; with caching enabled consult the
cache and return a truthy cached value immediately (`if (cachedResponse)`);
otherwise run the request path.  `now` is the clock reading during the
call (the model uses one reading per call). -/
def clientGet (cfg : ClientConfig) (m : Cache) (url : String)
    (headers : Option (List (String × String)))
    (outcomes : Nat → AttemptOutcome) (now : Nat) : GetOutcome :=
  let ckey := GenerateCacheKey url headers
  if cfg.cache.enabled then
    match getFromCache cfg.cache m ckey now with
    | (some d, m1) =>
      if d.truthy then
        { res := { data := d, error := none }, cache := m1,
          transportCalls := 0, onRetryCalls := 0, totalDelay := 0 }
      else finishGet cfg m1 ckey outcomes now
    | (none, m1) => finishGet cfg m1 ckey outcomes now
  else finishGet cfg m ckey outcomes now

theorem clientGet_miss (cfg : ClientConfig) (m : Cache) (url : String)
    (headers : Option (List (String × String)))
    (outcomes : Nat → AttemptOutcome) (now : Nat)
    (henabled : cfg.cache.enabled = true)
    (hmiss : mapGet m (GenerateCacheKey url headers) = none) :
    clientGet cfg m url headers outcomes now =
      finishGet cfg m (GenerateCacheKey url headers) outcomes now := by
  simp [clientGet, getFromCache, henabled, hmiss]

theorem clientGet_hit (cfg : ClientConfig) (m : Cache) (url : String)
    (headers : Option (List (String × String)))
    (outcomes : Nat → AttemptOutcome) (now : Nat) (e : CacheEntry)
    (henabled : cfg.cache.enabled = true)
    (hget : mapGet m (GenerateCacheKey url headers) = some e)
    (hfresh : ¬(now - e.timestamp > cfg.cache.maxAge))
    (htruthy : e.data.truthy = true) :
    clientGet cfg m url headers outcomes now =
      { res := { data := e.data, error := none }, cache := m,
        transportCalls := 0, onRetryCalls := 0, totalDelay := 0 } := by
  simp [clientGet, getFromCache, henabled, hget, hfresh, htruthy]

theorem finishGet_save (cfg : ClientConfig) (m : Cache) (ckey : String)
    (outcomes : Nat → AttemptOutcome) (now : Nat)
    (henabled : cfg.cache.enabled = true)
    (htruthy : (handleRequest cfg.retry outcomes).res.data.truthy = true) :
    finishGet cfg m ckey outcomes now =
      { res := (handleRequest cfg.retry outcomes).res,
        cache := saveToCache cfg.cache m ckey
          (handleRequest cfg.retry outcomes).res.data now,
        transportCalls := (handleRequest cfg.retry outcomes).attempts,
        onRetryCalls := (handleRequest cfg.retry outcomes).onRetryCalls,
        totalDelay := (handleRequest cfg.retry outcomes).totalDelay } := by
  simp [finishGet, henabled, htruthy]

theorem finishGet_no_save (cfg : ClientConfig) (m : Cache) (ckey : String)
    (outcomes : Nat → AttemptOutcome) (now : Nat)
    (hfalsy : (handleRequest cfg.retry outcomes).res.data.truthy = false) :
    finishGet cfg m ckey outcomes now =
      { res := (handleRequest cfg.retry outcomes).res, cache := m,
        transportCalls := (handleRequest cfg.retry outcomes).attempts,
        onRetryCalls := (handleRequest cfg.retry outcomes).onRetryCalls,
        totalDelay := (handleRequest cfg.retry outcomes).totalDelay } := by
  simp [finishGet, hfalsy]

theorem finishGet_res (cfg : ClientConfig) (m : Cache) (ckey : String)
    (outcomes : Nat → AttemptOutcome) (now : Nat) :
    (finishGet cfg m ckey outcomes now).res = (handleRequest cfg.retry outcomes).res := by
  simp only [finishGet]
  split <;> rfl

theorem finishGet_transportCalls (cfg : ClientConfig) (m : Cache) (ckey : String)
    (outcomes : Nat → AttemptOutcome) (now : Nat) :
    (finishGet cfg m ckey outcomes now).transportCalls =
      (handleRequest cfg.retry outcomes).attempts := by
  simp only [finishGet]
  split <;> rfl

/-- A cached falsy value fails the `if (cachedResponse)` check, so the
request path runs on the cache left by the lookup. -/
theorem clientGet_falsyHit (cfg : ClientConfig) (m : Cache) (url : String)
    (headers : Option (List (String × String)))
    (outcomes : Nat → AttemptOutcome) (now : Nat) (e : CacheEntry)
    (henabled : cfg.cache.enabled = true)
    (hget : mapGet m (GenerateCacheKey url headers) = some e)
    (hfresh : ¬(now - e.timestamp > cfg.cache.maxAge))
    (hfalsy : e.data.truthy = false) :
    clientGet cfg m url headers outcomes now =
      finishGet cfg m (GenerateCacheKey url headers) outcomes now := by
  simp [clientGet, getFromCache, henabled, hget, hfresh, hfalsy]

theorem truthy_ne_null {d : JsonValue} (h : d.truthy = true) :
    d ≠ JsonValue.null := by
  intro heq
  rw [heq] at h
  exact Bool.false_ne_true h

/-- The result of a `get` is either the result of the request path or a
truthy cache hit. -/
theorem clientGet_res_shape (cfg : ClientConfig) (m : Cache) (url : String)
    (headers : Option (List (String × String)))
    (outcomes : Nat → AttemptOutcome) (now : Nat) :
    (clientGet cfg m url headers outcomes now).res =
        (handleRequest cfg.retry outcomes).res ∨
      ∃ d : JsonValue, d.truthy = true ∧
        (clientGet cfg m url headers outcomes now).res =
          { data := d, error := none } := by
  by_cases henabled : cfg.cache.enabled = true
  · rcases hl : getFromCache cfg.cache m (GenerateCacheKey url headers) now
      with ⟨opt, m1⟩
    cases opt with
    | none =>
      left
      simp only [clientGet, henabled, if_true, hl]
      exact finishGet_res cfg m1 _ outcomes now
    | some d =>
      cases htruthy : d.truthy
      · left
        simp only [clientGet, henabled, if_true, hl, htruthy]
        simpa using finishGet_res cfg m1 _ outcomes now
      · right
        refine ⟨d, htruthy, ?_⟩
        simp [clientGet, henabled, hl, htruthy]
  · left
    have henabled' : cfg.cache.enabled = false := by
      cases h : cfg.cache.enabled
      · rfl
      · exact absurd h henabled
    simp only [clientGet, henabled', Bool.false_eq_true, if_false]
    exact finishGet_res cfg m _ outcomes now

/-- Exclusivity of `{data, error}` on every outcome, modulo the
success-with-JSON-null case where both fields are `null`. -/
def exclusiveOutcome (r : ResultT) : Prop :=
  (r.data ≠ JsonValue.null) ↔ (r.error = none)

theorem handleRequest_exclusive_or_null (c : RetryConfig)
    (outcomes : Nat → AttemptOutcome) :
    exclusiveOutcome (handleRequest c outcomes).res ∨
      ((handleRequest c outcomes).res.data = JsonValue.null ∧
       (handleRequest c outcomes).res.error = none ∧
       ∃ i, i ≤ effMaxRetries c ∧ outcomes i = .ok JsonValue.null) := by
  have hcases := loopGo_res_cases c outcomes (effMaxRetries c) 0 (by omega)
  rw [handleRequest]
  cases herr : (loopGo c outcomes 0).res.error with
  | none =>
    obtain ⟨i, _, hle, hok⟩ := hcases.1 herr
    by_cases hdata : (loopGo c outcomes 0).res.data = JsonValue.null
    · right
      exact ⟨hdata, rfl, i, hle, hdata ▸ hok⟩
    · left
      unfold exclusiveOutcome
      simp [hdata, herr]
  | some e =>
    left
    have hdata := hcases.2 (by rw [herr]; exact Option.some_ne_none e)
    unfold exclusiveOutcome
    simp [hdata, herr]

/-! ## Claim theorems -/

/-- Claim C8: the defensive post-loop return of `handleRequest` (the
failure "Request failed after maximum retries") is unreachable: for every
retry configuration and every sequence of attempt outcomes the loop
terminates through one of its explicit returns. -/
theorem claim_C8 (c : RetryConfig) (outcomes : Nat → AttemptOutcome) :
    (handleRequest c outcomes).defensive = false :=
  loopGo_not_defensive c outcomes (effMaxRetries c) 0 (by omega)

/-- Claim C4: if the first attempt yields a response with a non-success
status code, `handleRequest` performs exactly one attempt — no retry, no
delay, no `onRetry` invocation, for every `retry.count` — and returns a
failure whose error message is the response body text. -/
theorem claim_C4 (c : RetryConfig) (outcomes : Nat → AttemptOutcome)
    (t : String) (h : outcomes 0 = .httpErr t) :
    handleRequest c outcomes =
      { res := { data := .null, error := some t }, defensive := false,
        attempts := 1, onRetryCalls := 0, totalDelay := 0 } :=
  handleRequest_http0 c outcomes t h

theorem claim_C4_witness :
    handleRequest { count := 3, delay := 50, hasOnRetry := true }
        (fun _ => .httpErr "not found") =
      { res := { data := .null, error := some "not found" }, defensive := false,
        attempts := 1, onRetryCalls := 0, totalDelay := 0 } :=
  claim_C4 { count := 3, delay := 50, hasOnRetry := true } _ "not found" rfl

/-- Claim C3 (amended): with `retry.count = n`, an always-failing transport
produces exactly `n + 1` attempts and the last transport error; a transport
failing `k ≤ n` times then succeeding produces exactly `k + 1` attempts,
`k` `onRetry` invocations and the success, with total inter-attempt delay
`k * effDelay` — where `effDelay` is the configured delay, except that a
configured delay of 0 falls back to the 1000 ms default. -/
theorem claim_C3 :
    (∀ (c : RetryConfig) (outcomes : Nat → AttemptOutcome) (n : Nat)
        (lastMsg : String), c.count = n →
      (∀ i, i < n → ∃ e, outcomes i = .throwErr e) →
      outcomes n = .throwErr lastMsg →
      handleRequest c outcomes =
        { res := { data := .null, error := some lastMsg }, defensive := false,
          attempts := n + 1, onRetryCalls := n * onRetryInc c,
          totalDelay := n * effDelay c }) ∧
    (∀ (c : RetryConfig) (outcomes : Nat → AttemptOutcome) (k : Nat)
        (d : JsonValue), c.hasOnRetry = true → k ≤ c.count →
      (∀ i, i < k → ∃ e, outcomes i = .throwErr e) →
      outcomes k = .ok d →
      handleRequest c outcomes =
        { res := { data := d, error := none }, defensive := false,
          attempts := k + 1, onRetryCalls := k,
          totalDelay := k * effDelay c }) := by
  constructor
  · intro c outcomes n lastMsg hcount hthrow hlast
    rw [handleRequest]
    exact loopGo_throw_all c outcomes lastMsg n 0
      (by rw [effMaxRetries_eq_count]; omega)
      (fun i _ h2 => hthrow i (by omega))
      (by simpa using hlast)
  · intro c outcomes k d hcb hk hthrow hok
    rw [handleRequest]
    have h := loopGo_throw_then_ok c outcomes d k 0
      (by rw [effMaxRetries_eq_count]; omega)
      (fun i _ h2 => hthrow i (by omega))
      (by simpa using hok)
    rw [h]
    simp [onRetryInc, hcb]

theorem claim_C3_witness :
    (handleRequest { count := 2, delay := 5, hasOnRetry := true }
        (fun _ => .throwErr "connection refused") =
      { res := { data := .null, error := some "connection refused" },
        defensive := false, attempts := 3, onRetryCalls := 2,
        totalDelay := 10 }) ∧
    (handleRequest { count := 3, delay := 7, hasOnRetry := true }
        (fun i => if i < 2 then .throwErr "glitch" else .ok (.str "done")) =
      { res := { data := .str "done", error := none }, defensive := false,
        attempts := 3, onRetryCalls := 2, totalDelay := 14 }) := by
  constructor
  · have h := claim_C3.1 { count := 2, delay := 5, hasOnRetry := true } _ 2
      "connection refused" rfl (fun i _ => ⟨"connection refused", rfl⟩) rfl
    simpa using h
  · have h := claim_C3.2 { count := 3, delay := 7, hasOnRetry := true }
      (fun i => if i < 2 then .throwErr "glitch" else .ok (.str "done")) 2
      (.str "done") rfl (by decide)
      (fun i hi => ⟨"glitch", by simp [hi]⟩) (by simp)
    simpa using h

/-- Claim C3, counterexample to the claim as stated: with
`retry.count = 1` and `retry.delay = 0`, one transport failure followed by
a success incurs a total delay of 1000 ms, not `k * delayMs = 0`: the
falsy-delay fallback replaces the configured 0 with the default. -/
theorem claim_C3_counterexample :
    (handleRequest { count := 1, delay := 0, hasOnRetry := true }
        (fun i => if i = 0 then .throwErr "conn reset" else .ok (.num 1))).totalDelay
      = 1000 ∧
    1 * ({ count := 1, delay := 0, hasOnRetry := true } : RetryConfig).delay
      ≠ 1000 := by
  constructor
  · have h := loopGo_throw_then_ok
      { count := 1, delay := 0, hasOnRetry := true }
      (fun i => if i = 0 then .throwErr "conn reset" else .ok (.num 1))
      (.num 1) 1 0 (by decide)
      (fun i _ h2 => ⟨"conn reset", by
        have hi : i = 0 := by omega
        simp [hi]⟩)
      (by simp)
    rw [handleRequest, h]
    decide
  · decide

/-- Claim C10: a configured `retry.delay` of 0 is not honoured — every
inter-attempt sleep uses the 1000 ms default instead, because the fallback
is a falsiness check; and `retry.count = 0` yields exactly one attempt. -/
theorem claim_C10 :
    (∀ (c : RetryConfig) (outcomes : Nat → AttemptOutcome) (k : Nat)
        (d : JsonValue), c.delay = 0 → k ≤ c.count →
      (∀ i, i < k → ∃ e, outcomes i = .throwErr e) →
      outcomes k = .ok d →
      effDelay c = DEFAULT_RETRY_DELAY ∧
      (handleRequest c outcomes).totalDelay = k * DEFAULT_RETRY_DELAY) ∧
    (∀ (c : RetryConfig) (outcomes : Nat → AttemptOutcome),
      c.count = 0 → (handleRequest c outcomes).attempts = 1) := by
  constructor
  · intro c outcomes k d hdelay hk hthrow hok
    have heff : effDelay c = DEFAULT_RETRY_DELAY := by
      unfold effDelay
      rw [if_pos hdelay]
    refine ⟨heff, ?_⟩
    have h := loopGo_throw_then_ok c outcomes d k 0
      (by rw [effMaxRetries_eq_count]; omega)
      (fun i _ h2 => hthrow i (by omega))
      (by simpa using hok)
    rw [handleRequest, h, heff]
  · intro c outcomes hcount
    have heff : effMaxRetries c = 0 := by
      rw [effMaxRetries_eq_count, hcount]
    rw [handleRequest, loopGo]
    cases houtcome : outcomes 0 <;> simp [heff, houtcome]

theorem claim_C10_witness :
    (effDelay { count := 1, delay := 0, hasOnRetry := true } = DEFAULT_RETRY_DELAY ∧
      (handleRequest { count := 1, delay := 0, hasOnRetry := true }
        (fun i => if i = 0 then .throwErr "boom" else .ok (.num 2))).totalDelay
        = 1 * DEFAULT_RETRY_DELAY) ∧
    (handleRequest { count := 0, delay := 77, hasOnRetry := false }
        (fun _ => .throwErr "boom")).attempts = 1 := by
  constructor
  · exact claim_C10.1 { count := 1, delay := 0, hasOnRetry := true } _ 1 (.num 2)
      rfl (by decide)
      (fun i hi => ⟨"boom", by
        have h0 : i = 0 := by omega
        simp [h0]⟩)
      (by simp)
  · exact claim_C10.2 { count := 0, delay := 77, hasOnRetry := false } _ rfl

/-- Claim C2 (amended): on every return, `data` and `error` are never both
non-null, and exactly one is non-null in every case except a success whose
body decodes to JSON `null`, where both are null.  Stated for the request
path (`handleRequest`, used by post/put/delete) and for `get`. -/
theorem claim_C2 :
    (∀ (c : RetryConfig) (outcomes : Nat → AttemptOutcome),
      exclusiveOutcome (handleRequest c outcomes).res ∨
        ((handleRequest c outcomes).res.data = JsonValue.null ∧
         (handleRequest c outcomes).res.error = none ∧
         ∃ i, i ≤ effMaxRetries c ∧ outcomes i = .ok JsonValue.null)) ∧
    (∀ (cfg : ClientConfig) (m : Cache) (url : String)
        (headers : Option (List (String × String)))
        (outcomes : Nat → AttemptOutcome) (now : Nat),
      exclusiveOutcome (clientGet cfg m url headers outcomes now).res ∨
        ((clientGet cfg m url headers outcomes now).res.data = JsonValue.null ∧
         (clientGet cfg m url headers outcomes now).res.error = none ∧
         ∃ i, i ≤ effMaxRetries cfg.retry ∧ outcomes i = .ok JsonValue.null)) := by
  refine ⟨handleRequest_exclusive_or_null, ?_⟩
  intro cfg m url headers outcomes now
  rcases clientGet_res_shape cfg m url headers outcomes now with hshape | ⟨d, hd, hshape⟩
  · rw [hshape]
    exact handleRequest_exclusive_or_null cfg.retry outcomes
  · left
    rw [hshape]
    unfold exclusiveOutcome
    simp [truthy_ne_null hd]

/-- Claim C2, counterexample to the claim as stated: a 2xx response whose
body decodes to JSON `null` yields a `Result` with both `data` and `error`
null. -/
theorem claim_C2_counterexample :
    ¬ exclusiveOutcome
      (handleRequest { count := 0, delay := 0, hasOnRetry := false }
        (fun _ => .ok .null)).res := by
  have h := handleRequest_ok0 { count := 0, delay := 0, hasOnRetry := false }
    (fun _ => .ok .null) .null rfl
  rw [h]
  unfold exclusiveOutcome
  simp

/-- Claim C1 (amended): for every `maxCachedEntries ≥ 4`, any sequence of
`saveToCache` calls from the fresh client's empty cache keeps the store
size within `maxCachedEntries`; and whenever the size has reached a
non-zero `maxCachedEntries`, the next `saveToCache` first evicts the
oldest `floor(size / 4)` entries in ascending timestamp order before
inserting.  (For `maxCachedEntries ≤ 3` the sweep removes zero entries and
the bound fails — see the counterexample.) -/
theorem claim_C1 :
    (∀ (cfg : CacheConfig) (ops : List (String × JsonValue × Nat)),
      4 ≤ cfg.maxCachedEntries →
      (runPuts cfg ops).length ≤ cfg.maxCachedEntries) ∧
    (∀ (cfg : CacheConfig) (m : Cache) (key : String) (v : JsonValue)
        (now : Nat), keysNodup m → cfg.maxCachedEntries ≠ 0 →
      cfg.maxCachedEntries = m.length →
      saveToCache cfg m key v now =
        mapSet (cleanupCache cfg m) key { data := v, timestamp := now } ∧
      (cleanupCache cfg m).Perm
        ((sortByTimestamp m).drop ((sortByTimestamp m).length / 4)) ∧
      (∀ p ∈ m, p ∉ cleanupCache cfg m →
        ∀ q ∈ cleanupCache cfg m, p.2.timestamp ≤ q.2.timestamp)) := by
  constructor
  · intro cfg ops h4
    exact (runPuts_invariant cfg h4 ops).1
  · intro cfg m key v now hnd h0 hfull
    exact ⟨rfl, cleanupCache_perm_drop cfg m hnd ⟨h0, hfull⟩,
      cleanupCache_evicts_oldest cfg m hnd ⟨h0, hfull⟩⟩

theorem claim_C1_witness :
    ((runPuts { enabled := true, maxAge := 1000, maxCachedEntries := 4 }
        [("a", .num 1, 0), ("b", .num 2, 1), ("c", .num 3, 2),
         ("d", .num 4, 3), ("e", .num 5, 4)]).length ≤ 4) ∧
    (saveToCache { enabled := true, maxAge := 1000, maxCachedEntries := 4 }
        [("a", { data := .num 1, timestamp := 0 }),
         ("b", { data := .num 2, timestamp := 1 }),
         ("c", { data := .num 3, timestamp := 2 }),
         ("d", { data := .num 4, timestamp := 3 })] "e" (.num 5) 4 =
      mapSet (cleanupCache { enabled := true, maxAge := 1000, maxCachedEntries := 4 }
        [("a", { data := .num 1, timestamp := 0 }),
         ("b", { data := .num 2, timestamp := 1 }),
         ("c", { data := .num 3, timestamp := 2 }),
         ("d", { data := .num 4, timestamp := 3 })]) "e"
        { data := .num 5, timestamp := 4 } ∧
      (cleanupCache { enabled := true, maxAge := 1000, maxCachedEntries := 4 }
        [("a", { data := .num 1, timestamp := 0 }),
         ("b", { data := .num 2, timestamp := 1 }),
         ("c", { data := .num 3, timestamp := 2 }),
         ("d", { data := .num 4, timestamp := 3 })]).Perm
        ((sortByTimestamp
          [("a", { data := .num 1, timestamp := 0 }),
           ("b", { data := .num 2, timestamp := 1 }),
           ("c", { data := .num 3, timestamp := 2 }),
           ("d", { data := .num 4, timestamp := 3 })]).drop
          ((sortByTimestamp
            [("a", { data := .num 1, timestamp := 0 }),
             ("b", { data := .num 2, timestamp := 1 }),
             ("c", { data := .num 3, timestamp := 2 }),
             ("d", { data := .num 4, timestamp := 3 })]).length / 4)) ∧
      (∀ p ∈ ([("a", { data := .num 1, timestamp := 0 }),
               ("b", { data := .num 2, timestamp := 1 }),
               ("c", { data := .num 3, timestamp := 2 }),
               ("d", { data := .num 4, timestamp := 3 })] : Cache),
        p ∉ cleanupCache { enabled := true, maxAge := 1000, maxCachedEntries := 4 }
          [("a", { data := .num 1, timestamp := 0 }),
           ("b", { data := .num 2, timestamp := 1 }),
           ("c", { data := .num 3, timestamp := 2 }),
           ("d", { data := .num 4, timestamp := 3 })] →
        ∀ q ∈ cleanupCache { enabled := true, maxAge := 1000, maxCachedEntries := 4 }
          [("a", { data := .num 1, timestamp := 0 }),
           ("b", { data := .num 2, timestamp := 1 }),
           ("c", { data := .num 3, timestamp := 2 }),
           ("d", { data := .num 4, timestamp := 3 })],
          p.2.timestamp ≤ q.2.timestamp)) :=
  ⟨claim_C1.1 { enabled := true, maxAge := 1000, maxCachedEntries := 4 } _
      (by decide),
   claim_C1.2 { enabled := true, maxAge := 1000, maxCachedEntries := 4 } _
      "e" (.num 5) 4 (by unfold keysNodup; decide) (by decide) (by decide)⟩

/-- Claim C1, counterexample to the claim as stated: with
`maxCachedEntries = 1`, two writes of distinct keys leave the store at
size 2 — the triggered sweep removes `floor(1 * 0.25) = 0` entries, so the
bound is exceeded (and the strict `===` size check never fires again). -/
theorem claim_C1_counterexample :
    ¬ ((runPuts { enabled := true, maxAge := 1000, maxCachedEntries := 1 }
        [("a", .num 1, 0), ("b", .num 2, 1)]).length ≤
      ({ enabled := true, maxAge := 1000, maxCachedEntries := 1 } :
        CacheConfig).maxCachedEntries) := by
  decide

/-- Claim C6: `getFromCache` returns absent for an absent key; deletes and
returns absent for a present entry older than `maxAge` (so an expired
entry is never surfaced and is gone for the next lookup); and returns a
fresh entry's stored value without mutating the store. -/
theorem claim_C6 (cfg : CacheConfig) (m : Cache) (key : String) (now : Nat) :
    (mapGet m key = none → getFromCache cfg m key now = (none, m)) ∧
    (∀ e, mapGet m key = some e → now - e.timestamp > cfg.maxAge →
      getFromCache cfg m key now = (none, mapDelete m key) ∧
      mapGet (mapDelete m key) key = none) ∧
    (∀ e, mapGet m key = some e → ¬(now - e.timestamp > cfg.maxAge) →
      getFromCache cfg m key now = (some e.data, m)) := by
  refine ⟨fun hmiss => ?_, fun e hget hold => ?_, fun e hget hfresh => ?_⟩
  · unfold getFromCache
    rw [hmiss]
  · refine ⟨?_, mapGet_mapDelete_self m key⟩
    unfold getFromCache
    rw [hget]
    simp [hold]
  · unfold getFromCache
    rw [hget]
    simp [hfresh]

theorem claim_C6_witness :
    (getFromCache { enabled := true, maxAge := 100, maxCachedEntries := 5000 }
        [("k", { data := .num 7, timestamp := 10 })] "absent" 50 =
      (none, [("k", { data := .num 7, timestamp := 10 })])) ∧
    (getFromCache { enabled := true, maxAge := 100, maxCachedEntries := 5000 }
        [("k", { data := .num 7, timestamp := 10 })] "k" 200 =
      (none, mapDelete [("k", { data := .num 7, timestamp := 10 })] "k") ∧
      mapGet (mapDelete [("k", { data := .num 7, timestamp := 10 })] "k") "k"
        = none) ∧
    (getFromCache { enabled := true, maxAge := 100, maxCachedEntries := 5000 }
        [("k", { data := .num 7, timestamp := 10 })] "k" 50 =
      (some (.num 7), [("k", { data := .num 7, timestamp := 10 })])) :=
  ⟨(claim_C6 { enabled := true, maxAge := 100, maxCachedEntries := 5000 }
      [("k", { data := .num 7, timestamp := 10 })] "absent" 50).1 rfl,
   ⟨((claim_C6 { enabled := true, maxAge := 100, maxCachedEntries := 5000 }
      [("k", { data := .num 7, timestamp := 10 })] "k" 200).2.1
      { data := .num 7, timestamp := 10 } rfl (by decide)).1,
    ((claim_C6 { enabled := true, maxAge := 100, maxCachedEntries := 5000 }
      [("k", { data := .num 7, timestamp := 10 })] "k" 200).2.1
      { data := .num 7, timestamp := 10 } rfl (by decide)).2⟩,
   (claim_C6 { enabled := true, maxAge := 100, maxCachedEntries := 5000 }
      [("k", { data := .num 7, timestamp := 10 })] "k" 50).2.2
      { data := .num 7, timestamp := 10 } rfl (by decide)⟩

/-- Claim C5 (amended): with caching enabled, for a fixed URL+headers pair
whose key is not yet cached, after a first successful `get` with a truthy
payload a second `get` within `maxAge` returns the same data with no
transport call and no cache change; a cache miss goes through the retry
path (`handleRequest`); a truthy successful payload is written to the
cache stamped with the call time; and a failed request writes nothing (the
cache stays as the lookup left it).  The truthiness restriction is forced
by the `if (result.data)` / `if (cachedResponse)` checks — see the
counterexample. -/
theorem claim_C5 (cfg : ClientConfig) (m : Cache) (url : String)
    (headers : Option (List (String × String))) (now : Nat)
    (henabled : cfg.cache.enabled = true) :
    (∀ (out1 out2 : Nat → AttemptOutcome) (now2 : Nat),
      mapGet m (GenerateCacheKey url headers) = none →
      (clientGet cfg m url headers out1 now).res.error = none →
      (clientGet cfg m url headers out1 now).res.data.truthy = true →
      now2 - now ≤ cfg.cache.maxAge →
      (clientGet cfg (clientGet cfg m url headers out1 now).cache url headers
          out2 now2).res =
        { data := (clientGet cfg m url headers out1 now).res.data,
          error := none } ∧
      (clientGet cfg (clientGet cfg m url headers out1 now).cache url headers
          out2 now2).transportCalls = 0 ∧
      (clientGet cfg (clientGet cfg m url headers out1 now).cache url headers
          out2 now2).cache = (clientGet cfg m url headers out1 now).cache) ∧
    (∀ out : Nat → AttemptOutcome,
      mapGet m (GenerateCacheKey url headers) = none →
      (clientGet cfg m url headers out now).res = (handleRequest cfg.retry out).res ∧
      (clientGet cfg m url headers out now).transportCalls =
        (handleRequest cfg.retry out).attempts) ∧
    (∀ out : Nat → AttemptOutcome,
      mapGet m (GenerateCacheKey url headers) = none →
      (handleRequest cfg.retry out).res.data.truthy = true →
      mapGet (clientGet cfg m url headers out now).cache
          (GenerateCacheKey url headers) =
        some { data := (handleRequest cfg.retry out).res.data, timestamp := now }) ∧
    (∀ out : Nat → AttemptOutcome,
      (handleRequest cfg.retry out).res.error ≠ none →
      (clientGet cfg m url headers out now).cache =
        (getFromCache cfg.cache m (GenerateCacheKey url headers) now).2) := by
  refine ⟨?_, ?_, ?_, ?_⟩
  · intro out1 out2 now2 hmiss herr htruthy hage
    have hg1 := clientGet_miss cfg m url headers out1 now henabled hmiss
    have hres1 : (clientGet cfg m url headers out1 now).res =
        (handleRequest cfg.retry out1).res := by
      rw [hg1]
      exact finishGet_res cfg m _ out1 now
    have htr : (handleRequest cfg.retry out1).res.data.truthy = true := by
      rw [← hres1]
      exact htruthy
    have hsave := finishGet_save cfg m (GenerateCacheKey url headers) out1 now
      henabled htr
    have hcache1 : (clientGet cfg m url headers out1 now).cache =
        saveToCache cfg.cache m (GenerateCacheKey url headers)
          (handleRequest cfg.retry out1).res.data now := by
      rw [hg1, hsave]
    have hentry : mapGet (clientGet cfg m url headers out1 now).cache
        (GenerateCacheKey url headers) =
        some { data := (handleRequest cfg.retry out1).res.data, timestamp := now } := by
      rw [hcache1]
      unfold saveToCache
      exact mapGet_mapSet_self _ _ _
    have hhit := clientGet_hit cfg (clientGet cfg m url headers out1 now).cache
      url headers out2 now2
      { data := (handleRequest cfg.retry out1).res.data, timestamp := now }
      henabled hentry (by simp only; omega) htr
    rw [hhit, hres1]
    exact ⟨rfl, rfl, rfl⟩
  · intro out hmiss
    have hg := clientGet_miss cfg m url headers out now henabled hmiss
    rw [hg]
    exact ⟨finishGet_res cfg m _ out now, finishGet_transportCalls cfg m _ out now⟩
  · intro out hmiss htruthy
    have hg := clientGet_miss cfg m url headers out now henabled hmiss
    have hsave := finishGet_save cfg m (GenerateCacheKey url headers) out now
      henabled htruthy
    rw [hg, hsave]
    unfold saveToCache
    exact mapGet_mapSet_self _ _ _
  · intro out herr
    have hnull : (handleRequest cfg.retry out).res.data = JsonValue.null :=
      (loopGo_res_cases cfg.retry out (effMaxRetries cfg.retry) 0 (by omega)).2 herr
    have hfalsy : (handleRequest cfg.retry out).res.data.truthy = false := by
      rw [hnull]
      rfl
    have hfin : ∀ m1 : Cache,
        (finishGet cfg m1 (GenerateCacheKey url headers) out now).cache = m1 := by
      intro m1
      rw [finishGet_no_save cfg m1 _ out now hfalsy]
    rcases hl : getFromCache cfg.cache m (GenerateCacheKey url headers) now
      with ⟨opt, m1⟩
    cases opt with
    | none =>
      simp only [clientGet, henabled, if_true, hl]
      exact hfin m1
    | some d =>
      cases htd : d.truthy
      · simp only [clientGet, henabled, if_true, hl, htd, Bool.false_eq_true,
          if_false]
        exact hfin m1
      · simp only [clientGet, henabled, if_true, hl, htd, if_true]

theorem claim_C5_witness :
    ((clientGet
        { retry := { count := 0, delay := 0, hasOnRetry := false },
          cache := { enabled := true, maxAge := 300000, maxCachedEntries := 5000 } }
        (clientGet
          { retry := { count := 0, delay := 0, hasOnRetry := false },
            cache := { enabled := true, maxAge := 300000, maxCachedEntries := 5000 } }
          [] "u" none (fun _ => .ok (.num 1)) 0).cache
        "u" none (fun _ => .ok (.num 1)) 5).res =
      { data := (clientGet
          { retry := { count := 0, delay := 0, hasOnRetry := false },
            cache := { enabled := true, maxAge := 300000, maxCachedEntries := 5000 } }
          [] "u" none (fun _ => .ok (.num 1)) 0).res.data, error := none }) ∧
    ((clientGet
        { retry := { count := 0, delay := 0, hasOnRetry := false },
          cache := { enabled := true, maxAge := 300000, maxCachedEntries := 5000 } }
        [] "u" none (fun _ => .ok (.num 1)) 0).res =
      (handleRequest
        ({ retry := { count := 0, delay := 0, hasOnRetry := false },
           cache := { enabled := true, maxAge := 300000, maxCachedEntries := 5000 } } :
          ClientConfig).retry (fun _ => .ok (.num 1))).res) ∧
    (mapGet (clientGet
        { retry := { count := 0, delay := 0, hasOnRetry := false },
          cache := { enabled := true, maxAge := 300000, maxCachedEntries := 5000 } }
        [] "u" none (fun _ => .ok (.num 1)) 0).cache (GenerateCacheKey "u" none) =
      some (CacheEntry.mk (handleRequest
          ({ retry := { count := 0, delay := 0, hasOnRetry := false },
             cache := { enabled := true, maxAge := 300000, maxCachedEntries := 5000 } } :
            ClientConfig).retry (fun _ => .ok (.num 1))).res.data 0)) ∧
    ((clientGet
        { retry := { count := 0, delay := 0, hasOnRetry := false },
          cache := { enabled := true, maxAge := 300000, maxCachedEntries := 5000 } }
        [] "u" none (fun _ => .httpErr "500") 0).cache =
      (getFromCache
        { enabled := true, maxAge := 300000, maxCachedEntries := 5000 }
        [] (GenerateCacheKey "u" none) 0).2) := by
  have hc := claim_C5
    { retry := { count := 0, delay := 0, hasOnRetry := false },
      cache := { enabled := true, maxAge := 300000, maxCachedEntries := 5000 } }
    [] "u" none 0 rfl
  have hok := handleRequest_ok0
    ({ retry := { count := 0, delay := 0, hasOnRetry := false },
       cache := { enabled := true, maxAge := 300000, maxCachedEntries := 5000 } } :
      ClientConfig).retry (fun _ => .ok (.num 1)) (.num 1) rfl
  have hres := hc.2.1 (fun _ => .ok (.num 1)) rfl
  refine ⟨(hc.1 (fun _ => .ok (.num 1)) (fun _ => .ok (.num 1)) 5 rfl
      (by rw [hres.1, hok]) (by rw [hres.1, hok]; rfl) (by decide)).1,
    hres.1,
    hc.2.2.1 (fun _ => .ok (.num 1)) rfl (by rw [hok]; rfl),
    hc.2.2.2 (fun _ => .httpErr "500") ?_⟩
  rw [handleRequest_http0 _ _ "500" rfl]
  simp

/-- Claim C5, counterexample to the claim as stated: a first successful
`get` whose payload is the falsy JSON value `false` is not cached, so a
second identical `get` one millisecond later (well within `maxAge`)
performs a transport call, contradicting "performs no transport call". -/
theorem claim_C5_counterexample :
    (clientGet
      { retry := { count := 0, delay := 0, hasOnRetry := false },
        cache := { enabled := true, maxAge := 300000, maxCachedEntries := 5000 } }
      (clientGet
        { retry := { count := 0, delay := 0, hasOnRetry := false },
          cache := { enabled := true, maxAge := 300000, maxCachedEntries := 5000 } }
        [] "u" none (fun _ => .ok (.bool false)) 0).cache
      "u" none (fun _ => .ok (.bool false)) 1).transportCalls ≠ 0 := by
  have hok := handleRequest_ok0
    ({ retry := { count := 0, delay := 0, hasOnRetry := false },
       cache := { enabled := true, maxAge := 300000, maxCachedEntries := 5000 } } :
      ClientConfig).retry (fun _ => .ok (.bool false)) (.bool false) rfl
  have h1 := clientGet_miss
    { retry := { count := 0, delay := 0, hasOnRetry := false },
      cache := { enabled := true, maxAge := 300000, maxCachedEntries := 5000 } }
    [] "u" none (fun _ => .ok (.bool false)) 0 rfl rfl
  have h2 := finishGet_no_save
    { retry := { count := 0, delay := 0, hasOnRetry := false },
      cache := { enabled := true, maxAge := 300000, maxCachedEntries := 5000 } }
    [] (GenerateCacheKey "u" none) (fun _ => .ok (.bool false)) 0
    (by rw [hok]; rfl)
  have hcache : (clientGet
      { retry := { count := 0, delay := 0, hasOnRetry := false },
        cache := { enabled := true, maxAge := 300000, maxCachedEntries := 5000 } }
      [] "u" none (fun _ => .ok (.bool false)) 0).cache = [] := by
    rw [h1, h2]
  rw [hcache,
    clientGet_miss
      { retry := { count := 0, delay := 0, hasOnRetry := false },
        cache := { enabled := true, maxAge := 300000, maxCachedEntries := 5000 } }
      [] "u" none (fun _ => .ok (.bool false)) 1 rfl rfl,
    finishGet_transportCalls, hok]
  simp

/-- Claim C9: a GET whose body decodes to a falsy JSON value (`null`,
`false`, `0`, `""`) is never written to the cache, and a falsy value
already in the cache is treated as a miss by `if (cachedResponse)`; hence
with caching enabled repeated identical GETs returning such payloads hit
the transport every time, regardless of `maxAge`. -/
theorem claim_C9 :
    (∀ (cfg : ClientConfig) (m : Cache) (url : String)
        (headers : Option (List (String × String)))
        (out1 out2 : Nat → AttemptOutcome) (now1 now2 : Nat)
        (d1 d2 : JsonValue),
      cfg.cache.enabled = true →
      mapGet m (GenerateCacheKey url headers) = none →
      out1 0 = .ok d1 → d1.truthy = false →
      out2 0 = .ok d2 → d2.truthy = false →
      (clientGet cfg m url headers out1 now1).cache = m ∧
      (clientGet cfg m url headers out1 now1).transportCalls = 1 ∧
      (clientGet cfg (clientGet cfg m url headers out1 now1).cache url headers
        out2 now2).cache = m ∧
      (clientGet cfg (clientGet cfg m url headers out1 now1).cache url headers
        out2 now2).transportCalls = 1) ∧
    (∀ (cfg : ClientConfig) (m : Cache) (url : String)
        (headers : Option (List (String × String)))
        (out : Nat → AttemptOutcome) (now : Nat) (e : CacheEntry),
      cfg.cache.enabled = true →
      mapGet m (GenerateCacheKey url headers) = some e →
      e.data.truthy = false →
      ¬(now - e.timestamp > cfg.cache.maxAge) →
      (clientGet cfg m url headers out now).transportCalls =
        (handleRequest cfg.retry out).attempts ∧
      1 ≤ (handleRequest cfg.retry out).attempts) := by
  constructor
  · intro cfg m url headers out1 out2 now1 now2 d1 d2 henabled hmiss
      hout1 hd1 hout2 hd2
    have hh1 := handleRequest_ok0 cfg.retry out1 d1 hout1
    have hh2 := handleRequest_ok0 cfg.retry out2 d2 hout2
    have hg1 := clientGet_miss cfg m url headers out1 now1 henabled hmiss
    have hf1 := finishGet_no_save cfg m (GenerateCacheKey url headers) out1 now1
      (by rw [hh1]; exact hd1)
    have hcache1 : (clientGet cfg m url headers out1 now1).cache = m := by
      rw [hg1, hf1]
    have ht1 : (clientGet cfg m url headers out1 now1).transportCalls = 1 := by
      rw [hg1, hf1, hh1]
    have hg2 := clientGet_miss cfg m url headers out2 now2 henabled hmiss
    have hf2 := finishGet_no_save cfg m (GenerateCacheKey url headers) out2 now2
      (by rw [hh2]; exact hd2)
    refine ⟨hcache1, ht1, ?_, ?_⟩
    · rw [hcache1, hg2, hf2]
    · rw [hcache1, hg2, hf2, hh2]
  · intro cfg m url headers out now e henabled hget hfalsy hfresh
    have hfh := clientGet_falsyHit cfg m url headers out now e henabled hget
      hfresh hfalsy
    rw [hfh]
    exact ⟨finishGet_transportCalls cfg m _ out now,
      handleRequest_attempts_pos cfg.retry out⟩

theorem claim_C9_witness :
    ((clientGet
        { retry := { count := 0, delay := 0, hasOnRetry := false },
          cache := { enabled := true, maxAge := 300000, maxCachedEntries := 5000 } }
        [] "u" none (fun _ => .ok (.num 0)) 0).cache = [] ∧
      (clientGet
        { retry := { count := 0, delay := 0, hasOnRetry := false },
          cache := { enabled := true, maxAge := 300000, maxCachedEntries := 5000 } }
        [] "u" none (fun _ => .ok (.num 0)) 0).transportCalls = 1 ∧
      (clientGet
        { retry := { count := 0, delay := 0, hasOnRetry := false },
          cache := { enabled := true, maxAge := 300000, maxCachedEntries := 5000 } }
        (clientGet
          { retry := { count := 0, delay := 0, hasOnRetry := false },
            cache := { enabled := true, maxAge := 300000, maxCachedEntries := 5000 } }
          [] "u" none (fun _ => .ok (.num 0)) 0).cache
        "u" none (fun _ => .ok (.str "")) 1).cache = [] ∧
      (clientGet
        { retry := { count := 0, delay := 0, hasOnRetry := false },
          cache := { enabled := true, maxAge := 300000, maxCachedEntries := 5000 } }
        (clientGet
          { retry := { count := 0, delay := 0, hasOnRetry := false },
            cache := { enabled := true, maxAge := 300000, maxCachedEntries := 5000 } }
          [] "u" none (fun _ => .ok (.num 0)) 0).cache
        "u" none (fun _ => .ok (.str "")) 1).transportCalls = 1) ∧
    ((clientGet
        { retry := { count := 0, delay := 0, hasOnRetry := false },
          cache := { enabled := true, maxAge := 300000, maxCachedEntries := 5000 } }
        [("u|", { data := .bool false, timestamp := 0 })] "u" none
        (fun _ => .ok (.num 3)) 5).transportCalls =
      (handleRequest
        ({ retry := { count := 0, delay := 0, hasOnRetry := false },
           cache := { enabled := true, maxAge := 300000, maxCachedEntries := 5000 } } :
          ClientConfig).retry (fun _ => .ok (.num 3))).attempts ∧
      1 ≤ (handleRequest
        ({ retry := { count := 0, delay := 0, hasOnRetry := false },
           cache := { enabled := true, maxAge := 300000, maxCachedEntries := 5000 } } :
          ClientConfig).retry (fun _ => .ok (.num 3))).attempts) :=
  ⟨claim_C9.1
      { retry := { count := 0, delay := 0, hasOnRetry := false },
        cache := { enabled := true, maxAge := 300000, maxCachedEntries := 5000 } }
      [] "u" none (fun _ => .ok (.num 0)) (fun _ => .ok (.str "")) 0 1
      (.num 0) (.str "") rfl rfl rfl rfl rfl rfl,
   claim_C9.2
      { retry := { count := 0, delay := 0, hasOnRetry := false },
        cache := { enabled := true, maxAge := 300000, maxCachedEntries := 5000 } }
      [("u|", { data := .bool false, timestamp := 0 })] "u" none
      (fun _ => .ok (.num 3)) 5 { data := .bool false, timestamp := 0 }
      rfl rfl rfl (by decide)⟩

/-- Claim C7: the cache-key fingerprint is deterministic — two requests
with the same URL and the same header set, listed in any insertion orders
(with distinct lowercased names, as header sets have), produce equal keys;
and differing header sets produce differing keys (witnessed concretely;
hash-free encoding makes collisions possible only through the encoding
itself, as the claim allows). -/
theorem claim_C7 :
    (∀ (url : String) (hs1 hs2 : List (String × String)),
      List.Nodup (hs1.map (fun p => lowerString p.1)) →
      hs1.Perm hs2 →
      GenerateCacheKey url (some hs1) = GenerateCacheKey url (some hs2)) ∧
    GenerateCacheKey "u" (some [("a", "1")]) ≠
      GenerateCacheKey "u" (some [("b", "2")]) := by
  constructor
  · intro url hs1 hs2 hnd hperm
    simp only [GenerateCacheKey]
    rw [headersEntries_perm hs1 hs2 hnd hperm]
  · decide

theorem claim_C7_witness :
    GenerateCacheKey "https://api.example.com/items"
        (some [("Accept", "application/json"), ("X-Token", "abc")]) =
      GenerateCacheKey "https://api.example.com/items"
        (some [("X-Token", "abc"), ("Accept", "application/json")]) :=
  claim_C7.1 "https://api.example.com/items"
    [("Accept", "application/json"), ("X-Token", "abc")]
    [("X-Token", "abc"), ("Accept", "application/json")]
    (by decide) (by decide)

end TypeFetch
